import Mathlib

/-!
Verification of the logo recoloring utility (`LogoRecolor.py`).

The numeric pixel transform (`NonWhiteRecolorer._apply_color_to_nonwhite`) is
embedded over exact rationals: a uint8 channel value is cast to `ℚ` (the
float32 cast of the NumPy code), the arithmetic of lines 85-106 is carried out
in `ℚ`, and the final `np.clip(..., 0, 255).astype(np.uint8)` of line 108 is
clamping followed by truncation toward zero (floor, as the clamped value is
non-negative).  Float32 rounding is not modelled; all concrete inputs used
below are far from decision boundaries.
-/

/-- A pixel of the RGBA array: four uint8 channels, as read from the image. -/
structure Pixel where
  r : ℕ
  g : ℕ
  b : ℕ
  a : ℕ
deriving DecidableEq, Repr

/-- NumPy `np.clip(x, lo, hi)`. -/
def clampQ (x lo hi : ℚ) : ℚ := max lo (min hi x)

/-- Line 108: `np.clip(v, 0, 255).astype(np.uint8)` for one channel value:
clamp to `[0,255]`, then truncate to integer (floor, since non-negative). -/
def q255floor (x : ℚ) : ℕ := (⌊clampQ x 0 255⌋).toNat

/-- Lines 85-98 of `LogoRecolor.py`: the per-pixel recolor strength.
`brightness = (r+g+b)/3/255`; `whiteness = clip(brightness, 0, 1)`;
`threshold = white_threshold/255`; `transition_width = 0.6`;
`transition_start = threshold - transition_width`;
`distance = (whiteness - transition_start)/transition_width`;
`recolor_strength = 1 - clip(distance, 0, 1)`, overridden to `0` where
`whiteness >= threshold` (line 98). -/
def recolorStrength (whiteThreshold : ℕ) (p : Pixel) : ℚ :=
  let brightness : ℚ := ((p.r : ℚ) + (p.g : ℚ) + (p.b : ℚ)) / 3 / 255
  let whiteness := clampQ brightness 0 1
  let threshold : ℚ := (whiteThreshold : ℚ) / 255
  let transition_start := threshold - 3 / 5
  let distance := (whiteness - transition_start) / (3 / 5)
  if threshold ≤ whiteness then 0 else 1 - clampQ distance 0 1

/-- Lines 100-108 of `LogoRecolor.py` for one pixel.  Where `a > 0` (the
mask of line 100), each colour channel `c` is rewritten to
`r * (1 - strength) + new_color[c] * strength` — note the source uses the
red channel `r` as the blend input for all three channels (lines 103-105).
Alpha is never rewritten.  Every channel then passes through
`np.clip(, 0, 255).astype(np.uint8)` (line 108). -/
def recolorPixel (whiteThreshold : ℕ) (newColor : ℕ × ℕ × ℕ) (p : Pixel) : Pixel :=
  if 0 < p.a then
    let s := recolorStrength whiteThreshold p
    { r := q255floor ((p.r : ℚ) * (1 - s) + (newColor.1 : ℚ) * s)
      g := q255floor ((p.r : ℚ) * (1 - s) + (newColor.2.1 : ℚ) * s)
      b := q255floor ((p.r : ℚ) * (1 - s) + (newColor.2.2 : ℚ) * s)
      a := q255floor (p.a : ℚ) }
  else
    { r := q255floor (p.r : ℚ)
      g := q255floor (p.g : ℚ)
      b := q255floor (p.b : ℚ)
      a := q255floor (p.a : ℚ) }

/-- The whole-image transform: the array operation applied to every pixel of
the height × width grid. -/
def recolorImage (whiteThreshold : ℕ) (newColor : ℕ × ℕ × ℕ)
    (img : List (List Pixel)) : List (List Pixel) :=
  img.map (List.map (recolorPixel whiteThreshold newColor))

/-- Default `white_threshold` of the `NonWhiteRecolorer` constructor
(`LogoRecolor.py` line 51). -/
def engineDefaultWhiteThreshold : ℕ := 240

/-- Default of the `--white-threshold` (`-w`) CLI option
(`LogoRecolor.py` line 138). -/
def cliDefaultWhiteThreshold : ℕ := 250

/-- Evaluation helper: `q255floor x = n` once `x` is bracketed by the natural
number `n ≤ 255`. -/
lemma q255floor_eq {x : ℚ} {n : ℕ} (hn : n ≤ 255) (h1 : (n : ℚ) ≤ x)
    (h2 : x < n + 1) : q255floor x = n := by
  have h0 : (0 : ℚ) ≤ x := le_trans (by positivity) h1
  unfold q255floor clampQ
  rcases le_or_lt x 255 with hx | hx
  · rw [min_eq_right hx, max_eq_right h0]
    rw [show ⌊x⌋ = (n : ℤ) from Int.floor_eq_iff.mpr ⟨by exact_mod_cast h1, by push_cast; linarith⟩]
    simp
  · have h255 : n = 255 := by
      have hlt : (255 : ℚ) < (n : ℚ) + 1 := lt_trans hx h2
      have : 254 < n := by exact_mod_cast (by linarith : (254 : ℚ) < (n : ℚ))
      omega
    subst h255
    rw [min_eq_left hx.le, max_eq_right (by norm_num : (0:ℚ) ≤ 255)]
    rw [show ((255 : ℚ)) = (((255 : ℤ) : ℚ)) from by norm_num, Int.floor_intCast]
    rfl

/-- The clamp of line 96 keeps the distance in `[0,1]`. -/
lemma clampQ01_mem (x : ℚ) : 0 ≤ clampQ x 0 1 ∧ clampQ x 0 1 ≤ 1 := by
  unfold clampQ
  constructor
  · exact le_max_left 0 _
  · exact max_le (by norm_num) (min_le_left 1 x)

/-- The recolor strength always lies in `[0,1]`, for every threshold and
every pixel. -/
lemma recolorStrength_mem (wt : ℕ) (p : Pixel) :
    0 ≤ recolorStrength wt p ∧ recolorStrength wt p ≤ 1 := by
  unfold recolorStrength
  dsimp only
  split
  · exact ⟨le_refl 0, by norm_num⟩
  · rcases clampQ01_mem ((clampQ (((p.r : ℚ) + (p.g : ℚ) + (p.b : ℚ)) / 3 / 255) 0 1 -
      ((wt : ℚ) / 255 - 3 / 5)) / (3 / 5)) with ⟨h1, h2⟩
    constructor <;> linarith

/-- A uint8-valued channel passes through line 108 unchanged. -/
lemma q255floor_natCast {n : ℕ} (h : n ≤ 255) : q255floor (n : ℚ) = n :=
  q255floor_eq h (le_refl _) (by exact_mod_cast lt_add_one n)

/-- Line 108 is plain truncation when the value is already in `[0,255]`. -/
lemma q255floor_of_mem {x : ℚ} (h0 : 0 ≤ x) (h255 : x ≤ 255) :
    q255floor x = (⌊x⌋).toNat := by
  unfold q255floor clampQ
  rw [min_eq_right h255, max_eq_right h0]

/-- A blend of two channel values by a strength in `[0,1]` stays in `[0,255]`. -/
lemma blend_mem {v t s : ℚ} (hv0 : 0 ≤ v) (hv : v ≤ 255) (ht0 : 0 ≤ t)
    (ht : t ≤ 255) (hs0 : 0 ≤ s) (hs1 : s ≤ 1) :
    0 ≤ v * (1 - s) + t * s ∧ v * (1 - s) + t * s ≤ 255 := by
  constructor
  · have h1 := mul_nonneg hv0 (by linarith : (0 : ℚ) ≤ 1 - s)
    have h2 := mul_nonneg ht0 hs0
    linarith
  · nlinarith

/-- The pixel transform never rewrites alpha (lines 100-108). -/
lemma recolorPixel_a (wt : ℕ) (c : ℕ × ℕ × ℕ) (p : Pixel) (h : p.a ≤ 255) :
    (recolorPixel wt c p).a = p.a := by
  unfold recolorPixel
  split <;> exact q255floor_natCast h

/-- The pixel of a row-major image at row `i`, column `j`. -/
def pixelAt (img : List (List Pixel)) (i j : ℕ) : Option Pixel :=
  (img.getD i [])[j]?

lemma pixelAt_recolorImage (wt : ℕ) (c : ℕ × ℕ × ℕ) (img : List (List Pixel))
    (i j : ℕ) :
    pixelAt (recolorImage wt c img) i j =
      (pixelAt img i j).map (recolorPixel wt c) := by
  unfold pixelAt recolorImage
  have hrow : (img.map (List.map (recolorPixel wt c))).getD i [] =
      List.map (recolorPixel wt c) (img.getD i []) := by
    rw [List.getD_eq_getElem?_getD, List.getD_eq_getElem?_getD, List.getElem?_map]
    cases img[i]? <;> simp
  rw [hrow, List.getElem?_map]

lemma pixelAt_mem {img : List (List Pixel)} {i j : ℕ} {p : Pixel}
    (h : pixelAt img i j = some p) : ∃ row ∈ img, p ∈ row := by
  unfold pixelAt at h
  rcases hrow : img[i]? with _ | row
  · rw [List.getD_eq_getElem?_getD, hrow] at h
    simp at h
  · rw [List.getD_eq_getElem?_getD, hrow] at h
    exact ⟨row, List.getElem?_mem hrow, List.getElem?_mem h⟩

/-- Unfolded form of the strength (the let-chain of lines 85-98, zeta
reduced). -/
lemma recolorStrength_eq (wt : ℕ) (p : Pixel) :
    recolorStrength wt p =
      if ((wt : ℚ) / 255) ≤ clampQ (((p.r : ℚ) + (p.g : ℚ) + (p.b : ℚ)) / 3 / 255) 0 1
      then 0
      else 1 - clampQ ((clampQ (((p.r : ℚ) + (p.g : ℚ) + (p.b : ℚ)) / 3 / 255) 0 1 -
        ((wt : ℚ) / 255 - 3 / 5)) / (3 / 5)) 0 1 := rfl

/-- For any threshold of at least 153 (so the transition start is
non-negative), the strength at a pure black pixel is exactly 1. -/
lemma recolorStrength_black (wt : ℕ) (h : 153 ≤ wt) :
    recolorStrength wt ⟨0, 0, 0, 255⟩ = 1 := by
  have hw : (3 : ℚ) / 5 ≤ (wt : ℚ) / 255 := by
    rw [div_le_div_iff₀ (by norm_num) (by norm_num)]
    have hq : (153 : ℚ) ≤ (wt : ℚ) := by exact_mod_cast h
    linarith
  have hb : clampQ ((((⟨0, 0, 0, 255⟩ : Pixel).r : ℚ) + ((⟨0, 0, 0, 255⟩ : Pixel).g : ℚ) +
      ((⟨0, 0, 0, 255⟩ : Pixel).b : ℚ)) / 3 / 255) 0 1 = 0 := by
    norm_num [clampQ]
  rw [recolorStrength_eq, hb]
  rw [if_neg (by push_neg; exact div_pos (by linarith) (by norm_num))]
  have hd0 : ((0 : ℚ) - ((wt : ℚ) / 255 - 3 / 5)) / (3 / 5) ≤ 0 := by
    apply div_nonpos_of_nonpos_of_nonneg _ (by norm_num)
    linarith
  have hcl : clampQ (((0 : ℚ) - ((wt : ℚ) / 255 - 3 / 5)) / (3 / 5)) 0 1 = 0 := by
    unfold clampQ
    rw [min_eq_right (hd0.trans (by norm_num)), max_eq_left hd0]
  rw [hcl]
  ring

lemma recolorPixel_black (wt : ℕ) (h : 153 ≤ wt) (c : ℕ × ℕ × ℕ)
    (hc1 : c.1 ≤ 255) (hc2 : c.2.1 ≤ 255) (hc3 : c.2.2 ≤ 255) :
    recolorPixel wt c ⟨0, 0, 0, 255⟩ = ⟨c.1, c.2.1, c.2.2, 255⟩ := by
  unfold recolorPixel
  rw [if_pos (by norm_num : 0 < (Pixel.mk 0 0 0 255).a)]
  rw [recolorStrength_black wt h]
  simp only [Pixel.mk.injEq]
  refine ⟨?_, ?_, ?_, q255floor_natCast (by norm_num)⟩ <;>
    · rw [show ∀ t : ℕ, ((Pixel.mk 0 0 0 255).r : ℚ) * (1 - 1) + (t : ℚ) * 1 = (t : ℚ)
        from fun t => by push_cast; ring]
      first
        | exact q255floor_natCast hc1
        | exact q255floor_natCast hc2
        | exact q255floor_natCast hc3

/-- C1: the claim reads each output channel as blending that channel's own
input value; the code (lines 103-105) blends the red channel into all three.
At pixel `(100,200,30,255)`, target `(0,0,0)`, threshold `240`, the strength
is `130/153`; the code outputs `(15,15,15)`, while the claimed per-channel
formula puts `⌊200 * 23/153⌋ = 30` in the green channel. -/
theorem red_channel_blend_divergence :
    recolorPixel 240 (0, 0, 0) ⟨100, 200, 30, 255⟩ = ⟨15, 15, 15, 255⟩ ∧
    (⌊(200 : ℚ) * (1 - recolorStrength 240 ⟨100, 200, 30, 255⟩) +
        (0 : ℚ) * recolorStrength 240 ⟨100, 200, 30, 255⟩⌋).toNat = 30 := by
  have hs : recolorStrength 240 ⟨100, 200, 30, 255⟩ = 130/153 := by
    unfold recolorStrength clampQ
    norm_num [min_def, max_def]
  constructor
  · unfold recolorPixel
    rw [if_pos (by norm_num : 0 < (Pixel.mk 100 200 30 255).a)]
    rw [hs]
    simp only [Pixel.mk.injEq]
    refine ⟨?_, ?_, ?_, ?_⟩ <;>
      exact q255floor_eq (by norm_num) (by norm_num) (by norm_num)
  · rw [hs]
    rw [show (200 : ℚ) * (1 - 130/153) + (0 : ℚ) * (130/153) = 4600/153 by ring]
    rw [show ⌊(4600 : ℚ)/153⌋ = (30 : ℤ) from Int.floor_eq_iff.mpr (by norm_num)]
    rfl

/-- C2: at threshold 250, pixel `(250,255,255,255)` has brightness
`760/765 ≥ 250/255`, so its strength is forced to `0` — but the output is
`(250,250,250,255)`, not the input pixel: even at strength `0` the code
writes the red channel value into all three channels (lines 103-105), so a
whiter-than-threshold pixel with unequal channels is not left unchanged. -/
theorem white_pixel_not_left_unchanged :
    recolorStrength 250 ⟨250, 255, 255, 255⟩ = 0 ∧
    recolorPixel 250 (0, 0, 255) ⟨250, 255, 255, 255⟩ = ⟨250, 250, 250, 255⟩ ∧
    recolorPixel 250 (0, 0, 255) ⟨250, 255, 255, 255⟩ ≠ ⟨250, 255, 255, 255⟩ := by
  have hs : recolorStrength 250 ⟨250, 255, 255, 255⟩ = 0 := by
    unfold recolorStrength clampQ
    norm_num [min_def, max_def]
  have hpx : recolorPixel 250 (0, 0, 255) ⟨250, 255, 255, 255⟩ =
      ⟨250, 250, 250, 255⟩ := by
    unfold recolorPixel
    rw [if_pos (by norm_num : 0 < (Pixel.mk 250 255 255 255).a)]
    rw [hs]
    simp only [Pixel.mk.injEq]
    refine ⟨?_, ?_, ?_, ?_⟩ <;>
      exact q255floor_eq (by norm_num) (by norm_num) (by norm_num)
  exact ⟨hs, hpx, by rw [hpx]; simp⟩

/-- C3: the output image has the same height and row widths as the input,
and the alpha channel of every output pixel equals the alpha channel of the
corresponding input pixel. -/
theorem recolor_preserves_dims_and_alpha (wt : ℕ) (c : ℕ × ℕ × ℕ)
    (img : List (List Pixel)) (h : ∀ row ∈ img, ∀ p ∈ row, p.a ≤ 255) :
    (recolorImage wt c img).length = img.length ∧
    (∀ i : ℕ, ((recolorImage wt c img).getD i []).length = (img.getD i []).length) ∧
    (∀ i j : ℕ, (pixelAt (recolorImage wt c img) i j).map Pixel.a =
      (pixelAt img i j).map Pixel.a) := by
  refine ⟨List.length_map _ _, ?_, ?_⟩
  · intro i
    unfold recolorImage
    rw [List.getD_eq_getElem?_getD, List.getD_eq_getElem?_getD, List.getElem?_map]
    cases img[i]? <;> first | rfl | simp
  · intro i j
    rw [pixelAt_recolorImage]
    rcases hp : pixelAt img i j with _ | p
    · rfl
    · rcases pixelAt_mem hp with ⟨row, hrow, hmem⟩
      simp only [Option.map_some']
      rw [recolorPixel_a wt c p (h row hrow p hmem)]

/-- Witness for `recolor_preserves_dims_and_alpha` at a concrete image. -/
theorem recolor_preserves_dims_and_alpha_witness :
    (∀ row ∈ [[Pixel.mk 10 20 30 128]], ∀ p ∈ row, p.a ≤ 255) ∧
    ((recolorImage 250 (0, 0, 255) [[Pixel.mk 10 20 30 128]]).length =
        [[Pixel.mk 10 20 30 128]].length ∧
      (∀ i : ℕ, ((recolorImage 250 (0, 0, 255) [[Pixel.mk 10 20 30 128]]).getD i []).length =
        ([[Pixel.mk 10 20 30 128]].getD i []).length) ∧
      (∀ i j : ℕ, (pixelAt (recolorImage 250 (0, 0, 255) [[Pixel.mk 10 20 30 128]]) i j).map Pixel.a =
        (pixelAt [[Pixel.mk 10 20 30 128]] i j).map Pixel.a)) :=
  ⟨by decide, recolor_preserves_dims_and_alpha 250 (0, 0, 255) [[Pixel.mk 10 20 30 128]] (by decide)⟩

/-- C4: a pixel with alpha 0 passes through unchanged (the mask of line 100
skips it; line 108 is the identity on uint8 channels), and an image whose
pixels all have alpha 0 is returned equal to the input. -/
theorem alpha_zero_pixels_unchanged (wt : ℕ) (c : ℕ × ℕ × ℕ) :
    (∀ p : Pixel, p.a = 0 → p.r ≤ 255 → p.g ≤ 255 → p.b ≤ 255 →
      recolorPixel wt c p = p) ∧
    (∀ img : List (List Pixel),
      (∀ row ∈ img, ∀ p ∈ row, p.a = 0 ∧ p.r ≤ 255 ∧ p.g ≤ 255 ∧ p.b ≤ 255) →
      recolorImage wt c img = img) := by
  have hpx : ∀ p : Pixel, p.a = 0 → p.r ≤ 255 → p.g ≤ 255 → p.b ≤ 255 →
      recolorPixel wt c p = p := by
    intro p ha hr hg hb
    unfold recolorPixel
    rw [if_neg (by omega)]
    cases p
    simp only [Pixel.mk.injEq] at *
    exact ⟨q255floor_natCast hr, q255floor_natCast hg, q255floor_natCast hb,
      q255floor_natCast (by omega)⟩
  refine ⟨hpx, ?_⟩
  intro img h
  unfold recolorImage
  conv_rhs => rw [show img = img.map id from (List.map_id img).symm]
  apply List.map_congr_left
  intro row hrow
  simp only [id]
  conv_rhs => rw [show row = row.map id from (List.map_id row).symm]
  apply List.map_congr_left
  intro p hp
  rcases h row hrow p hp with ⟨ha, hr, hg, hb⟩
  simp only [id]
  exact hpx p ha hr hg hb

/-- Witness for `alpha_zero_pixels_unchanged`. -/
theorem alpha_zero_pixels_unchanged_witness :
    ((∀ p : Pixel, p.a = 0 → p.r ≤ 255 → p.g ≤ 255 → p.b ≤ 255 →
        recolorPixel 240 (255, 0, 0) p = p) ∧
      (∀ img : List (List Pixel),
        (∀ row ∈ img, ∀ p ∈ row, p.a = 0 ∧ p.r ≤ 255 ∧ p.g ≤ 255 ∧ p.b ≤ 255) →
        recolorImage 240 (255, 0, 0) img = img)) ∧
    recolorPixel 240 (255, 0, 0) ⟨7, 8, 9, 0⟩ = ⟨7, 8, 9, 0⟩ :=
  ⟨alpha_zero_pixels_unchanged 240 (255, 0, 0),
    (alpha_zero_pixels_unchanged 240 (255, 0, 0)).1 ⟨7, 8, 9, 0⟩ (by decide)
      (by decide) (by decide) (by decide)⟩

/-- C5: at both source defaults (engine constructor 240, CLI 250), the
strength at a pure black opaque pixel is exactly 1 and the recolored pixel
equals the target colour exactly (tolerance 0 ≤ 1). -/
theorem black_pixel_recolors_to_target (c : ℕ × ℕ × ℕ)
    (hc1 : c.1 ≤ 255) (hc2 : c.2.1 ≤ 255) (hc3 : c.2.2 ≤ 255) :
    recolorStrength engineDefaultWhiteThreshold ⟨0, 0, 0, 255⟩ = 1 ∧
    recolorStrength cliDefaultWhiteThreshold ⟨0, 0, 0, 255⟩ = 1 ∧
    recolorPixel engineDefaultWhiteThreshold c ⟨0, 0, 0, 255⟩ = ⟨c.1, c.2.1, c.2.2, 255⟩ ∧
    recolorPixel cliDefaultWhiteThreshold c ⟨0, 0, 0, 255⟩ = ⟨c.1, c.2.1, c.2.2, 255⟩ ∧
    (∀ img : List (List Pixel), (∀ row ∈ img, ∀ p ∈ row, p = ⟨0, 0, 0, 255⟩) →
      ∀ row ∈ recolorImage engineDefaultWhiteThreshold c img, ∀ p ∈ row,
        p = ⟨c.1, c.2.1, c.2.2, 255⟩) := by
  refine ⟨recolorStrength_black 240 (by norm_num),
    recolorStrength_black 250 (by norm_num),
    recolorPixel_black 240 (by norm_num) c hc1 hc2 hc3,
    recolorPixel_black 250 (by norm_num) c hc1 hc2 hc3, ?_⟩
  intro img h row hrow p hp
  unfold recolorImage at hrow
  rcases List.mem_map.mp hrow with ⟨row0, hrow0, rfl⟩
  rcases List.mem_map.mp hp with ⟨p0, hp0, rfl⟩
  rw [h row0 hrow0 p0 hp0]
  exact recolorPixel_black 240 (by norm_num) c hc1 hc2 hc3

/-- Witness for `black_pixel_recolors_to_target` at target `(10,20,30)`. -/
theorem black_pixel_recolors_to_target_witness :
    ((10 : ℕ) ≤ 255 ∧ (20 : ℕ) ≤ 255 ∧ (30 : ℕ) ≤ 255) ∧
    recolorPixel engineDefaultWhiteThreshold (10, 20, 30) ⟨0, 0, 0, 255⟩ =
      ⟨10, 20, 30, 255⟩ :=
  ⟨⟨by decide, by decide, by decide⟩,
    (black_pixel_recolors_to_target (10, 20, 30) (by decide) (by decide)
      (by decide)).2.2.1⟩

/-- C8 counterexample: the recolor engine's own default threshold (the
`NonWhiteRecolorer.__init__` default) is 240, not 250. -/
theorem engine_default_threshold_ne_250 : engineDefaultWhiteThreshold ≠ 250 := by
  decide

/-- C8 amended: the CLI option supplies 250 when the flag is absent, while
the engine constructor's own default is 240. -/
theorem default_threshold_values :
    cliDefaultWhiteThreshold = 250 ∧ engineDefaultWhiteThreshold = 240 := by
  decide

/-- C9: for every threshold in `[0,255]` (including those below 153, where
the transition start `threshold/255 - 0.6` is negative) and every pixel, the
computed recolor strength lies in `[0,1]`; the whole transform is a total
function. -/
theorem recolorStrength_in_unit_interval (wt : ℕ) (hwt : wt ≤ 255) (p : Pixel) :
    0 ≤ recolorStrength wt p ∧ recolorStrength wt p ≤ 1 :=
  recolorStrength_mem wt p

/-- Witness for `recolorStrength_in_unit_interval` at threshold 100 < 153. -/
theorem recolorStrength_in_unit_interval_witness :
    (100 : ℕ) ≤ 255 ∧ (0 ≤ recolorStrength 100 ⟨10, 20, 30, 255⟩ ∧
      recolorStrength 100 ⟨10, 20, 30, 255⟩ ≤ 1) :=
  ⟨by decide, recolorStrength_in_unit_interval 100 (by decide) ⟨10, 20, 30, 255⟩⟩

/-- C10: on a grayscale pixel (R = G = B) with positive alpha, every output
channel equals that channel's own input value blended with the target and
truncated — the red-channel blend of lines 103-105 coincides with the
per-channel formula. -/
theorem grayscale_blend_per_channel (wt : ℕ) (c : ℕ × ℕ × ℕ) (p : Pixel)
    (ha : 0 < p.a) (hgr : p.g = p.r) (hbr : p.b = p.r) (hr : p.r ≤ 255)
    (hc1 : c.1 ≤ 255) (hc2 : c.2.1 ≤ 255) (hc3 : c.2.2 ≤ 255) :
    (recolorPixel wt c p).r =
      (⌊(p.r : ℚ) * (1 - recolorStrength wt p) + (c.1 : ℚ) * recolorStrength wt p⌋).toNat ∧
    (recolorPixel wt c p).g =
      (⌊(p.g : ℚ) * (1 - recolorStrength wt p) + (c.2.1 : ℚ) * recolorStrength wt p⌋).toNat ∧
    (recolorPixel wt c p).b =
      (⌊(p.b : ℚ) * (1 - recolorStrength wt p) + (c.2.2 : ℚ) * recolorStrength wt p⌋).toNat := by
  rcases recolorStrength_mem wt p with ⟨hs0, hs1⟩
  have hrq : ((p.r : ℚ)) ≤ 255 := by exact_mod_cast hr
  have hb1 := blend_mem (v := (p.r : ℚ)) (t := (c.1 : ℚ))
    (s := recolorStrength wt p) (by positivity) hrq (by positivity)
    (by exact_mod_cast hc1) hs0 hs1
  have hb2 := blend_mem (v := (p.r : ℚ)) (t := (c.2.1 : ℚ))
    (s := recolorStrength wt p) (by positivity) hrq (by positivity)
    (by exact_mod_cast hc2) hs0 hs1
  have hb3 := blend_mem (v := (p.r : ℚ)) (t := (c.2.2 : ℚ))
    (s := recolorStrength wt p) (by positivity) hrq (by positivity)
    (by exact_mod_cast hc3) hs0 hs1
  unfold recolorPixel
  rw [if_pos ha]
  refine ⟨?_, ?_, ?_⟩
  · exact q255floor_of_mem hb1.1 hb1.2
  · rw [hgr]
    exact q255floor_of_mem hb2.1 hb2.2
  · rw [hbr]
    exact q255floor_of_mem hb3.1 hb3.2

/-- Witness for `grayscale_blend_per_channel` at a concrete gray pixel. -/
theorem grayscale_blend_per_channel_witness :
    (0 < (Pixel.mk 100 100 100 255).a ∧ (Pixel.mk 100 100 100 255).g = (Pixel.mk 100 100 100 255).r) ∧
    ((recolorPixel 240 (0, 0, 255) ⟨100, 100, 100, 255⟩).r =
      (⌊((Pixel.mk 100 100 100 255).r : ℚ) * (1 - recolorStrength 240 ⟨100, 100, 100, 255⟩) +
          ((0 : ℕ) : ℚ) * recolorStrength 240 ⟨100, 100, 100, 255⟩⌋).toNat ∧
      (recolorPixel 240 (0, 0, 255) ⟨100, 100, 100, 255⟩).g =
        (⌊((Pixel.mk 100 100 100 255).g : ℚ) * (1 - recolorStrength 240 ⟨100, 100, 100, 255⟩) +
          ((0 : ℕ) : ℚ) * recolorStrength 240 ⟨100, 100, 100, 255⟩⌋).toNat ∧
      (recolorPixel 240 (0, 0, 255) ⟨100, 100, 100, 255⟩).b =
        (⌊((Pixel.mk 100 100 100 255).b : ℚ) * (1 - recolorStrength 240 ⟨100, 100, 100, 255⟩) +
          ((255 : ℕ) : ℚ) * recolorStrength 240 ⟨100, 100, 100, 255⟩⌋).toNat) :=
  ⟨⟨by decide, by decide⟩,
    grayscale_blend_per_channel 240 (0, 0, 255) ⟨100, 100, 100, 255⟩ (by decide)
      (by decide) (by decide) (by decide) (by decide) (by decide) (by decide)⟩

/-! ### The colour parser (`ColorConverter`, `LogoRecolor.py` lines 9-45)

Strings are modelled as `List Char`; only the ASCII fragment of Python's
case folding and whitespace is modelled, which covers every accepted colour
string.  `none` models a raised `ValueError`. -/

/-- The whitespace characters stripped by Python `str.strip()` and by
`int()` (ASCII part). -/
def isPySpace (c : Char) : Bool :=
  c == ' ' || c == '\t' || c == '\n' || c == '\r' || c == '\x0b' || c == '\x0c'

/-- Python `str.strip()`: remove leading and trailing whitespace. -/
def pyStrip (s : List Char) : List Char :=
  ((s.dropWhile isPySpace).reverse.dropWhile isPySpace).reverse

/-- Python `str.lower()` on one character (ASCII part). -/
def pyLowerChar (c : Char) : Char :=
  match c with
  | 'A' => 'a'
  | 'B' => 'b'
  | 'C' => 'c'
  | 'D' => 'd'
  | 'E' => 'e'
  | 'F' => 'f'
  | 'G' => 'g'
  | 'H' => 'h'
  | 'I' => 'i'
  | 'J' => 'j'
  | 'K' => 'k'
  | 'L' => 'l'
  | 'M' => 'm'
  | 'N' => 'n'
  | 'O' => 'o'
  | 'P' => 'p'
  | 'Q' => 'q'
  | 'R' => 'r'
  | 'S' => 's'
  | 'T' => 't'
  | 'U' => 'u'
  | 'V' => 'v'
  | 'W' => 'w'
  | 'X' => 'x'
  | 'Y' => 'y'
  | 'Z' => 'z'
  | _ => c

/-- Python `str.upper()` on one character (ASCII part). -/
def pyUpperChar (c : Char) : Char :=
  match c with
  | 'a' => 'A'
  | 'b' => 'B'
  | 'c' => 'C'
  | 'd' => 'D'
  | 'e' => 'E'
  | 'f' => 'F'
  | 'g' => 'G'
  | 'h' => 'H'
  | 'i' => 'I'
  | 'j' => 'J'
  | 'k' => 'K'
  | 'l' => 'L'
  | 'm' => 'M'
  | 'n' => 'N'
  | 'o' => 'O'
  | 'p' => 'P'
  | 'q' => 'Q'
  | 'r' => 'R'
  | 's' => 'S'
  | 't' => 'T'
  | 'u' => 'U'
  | 'v' => 'V'
  | 'w' => 'W'
  | 'x' => 'X'
  | 'y' => 'Y'
  | 'z' => 'Z'
  | _ => c

/-- Model of `hex_color.lstrip("#")` on line 15: drop every leading `#`. -/
def lstripHash (s : List Char) : List Char := s.dropWhile (fun c => c == '#')

/-- A hexadecimal digit with its value, as accepted by Python `int(_, 16)`
(both cases). -/
def hexDigit? (c : Char) : Option ℕ :=
  let n := c.toNat
  if 48 ≤ n ∧ n ≤ 57 then some (n - 48)
  else if 97 ≤ n ∧ n ≤ 102 then some (n - 87)
  else if 65 ≤ n ∧ n ≤ 70 then some (n - 55)
  else none

/-- A decimal digit with its value, as accepted by Python `int(_)`. -/
def decDigit? (c : Char) : Option ℕ :=
  let n := c.toNat
  if 48 ≤ n ∧ n ≤ 57 then some (n - 48) else none

/-- Remaining digits of a Python integer literal: a single underscore is
legal between two digits, nowhere else. -/
def pyDigitsLoop (f : Char → Option ℕ) (base : ℕ) : List Char → ℕ → Option ℕ
  | [], acc => some acc
  | '_' :: c :: rest, acc =>
    match f c with
    | some d => pyDigitsLoop f base rest (acc * base + d)
    | none => none
  | c :: rest, acc =>
    match f c with
    | some d => pyDigitsLoop f base rest (acc * base + d)
    | none => none

/-- The digit run of a Python integer literal: at least one digit. -/
def pyDigitRun (f : Char → Option ℕ) (base : ℕ) : List Char → Option ℕ
  | [] => none
  | c :: rest =>
    match f c with
    | some d => pyDigitsLoop f base rest d
    | none => none

/-- Python `int(s, 16)` after stripping whitespace and sign: an optional
`0x`/`0X` prefix (an underscore may follow it), then hex digits. -/
def pyIntCore16 (s : List Char) : Option ℕ :=
  match s with
  | '0' :: 'x' :: '_' :: rest => pyDigitRun hexDigit? 16 rest
  | '0' :: 'x' :: rest => pyDigitRun hexDigit? 16 rest
  | '0' :: 'X' :: '_' :: rest => pyDigitRun hexDigit? 16 rest
  | '0' :: 'X' :: rest => pyDigitRun hexDigit? 16 rest
  | _ => pyDigitRun hexDigit? 16 s

/-- Python `int(s, 16)`: surrounding whitespace, an optional sign, prefix
and digits.  `none` models `ValueError`. -/
def pyInt16 (s : List Char) : Option ℤ :=
  match pyStrip s with
  | '+' :: rest => (pyIntCore16 rest).map (fun n => (n : ℤ))
  | '-' :: rest => (pyIntCore16 rest).map (fun n => -(n : ℤ))
  | t => (pyIntCore16 t).map (fun n => (n : ℤ))

/-- Python `int(s)` (base 10): surrounding whitespace, an optional sign,
digits.  `none` models `ValueError`. -/
def pyInt10 (s : List Char) : Option ℤ :=
  match pyStrip s with
  | '+' :: rest => (pyDigitRun decDigit? 10 rest).map (fun n => (n : ℤ))
  | '-' :: rest => (pyDigitRun decDigit? 10 rest).map (fun n => -(n : ℤ))
  | t => (pyDigitRun decDigit? 10 t).map (fun n => (n : ℤ))

/-- Model of `ColorConverter.hex_to_rgb` (lines 13-20): strip, drop leading `#`s,
duplicate each character when 3 long, demand length 6, convert the three
2-character slices with `int(_, 16)`. -/
def hex_to_rgb (s : List Char) : Option (ℤ × ℤ × ℤ) :=
  let h0 := lstripHash (pyStrip s)
  let h := if h0.length = 3 then h0.flatMap (fun c => [c, c]) else h0
  if h.length = 6 then
    match pyInt16 (h.take 2), pyInt16 ((h.drop 2).take 2), pyInt16 ((h.drop 4).take 2) with
    | some r, some g, some b => some (r, g, b)
    | _, _, _ => none
  else none

/-- Model of `color_input.startswith("#")`. -/
def startsWithHash : List Char → Bool
  | '#' :: _ => true
  | _ => false

/-- The sixteen characters of the literal `"0123456789abcdef"` on line 28. -/
def hexLowerChars : List Char :=
  ['0', '1', '2', '3', '4'] ++ ['5', '6', '7', '8', '9'] ++ ['a', 'b', 'c', 'd', 'e', 'f']

/-- Check `c in "0123456789abcdef"` of line 28. -/
def isLowerHexChar (c : Char) : Bool := hexLowerChars.contains c

/-- Python `str.replace("rgb", "")`: remove every occurrence, left to right. -/
def removeRGB : List Char → List Char
  | 'r' :: 'g' :: 'b' :: rest => removeRGB rest
  | c :: rest => c :: removeRGB rest
  | [] => []

/-- Python `str.replace(x, "")` for a single character `x`. -/
def removeChar (x : Char) (s : List Char) : List Char := s.filter (fun c => c ≠ x)

/-- Python `str.split(",")`: split at every comma, keeping empty pieces. -/
def splitComma : List Char → List (List Char)
  | [] => [[]]
  | ',' :: rest => [] :: splitComma rest
  | c :: rest =>
    match splitComma rest with
    | p :: ps => (c :: p) :: ps
    | [] => [[c]]

/-- Model of `ColorConverter.parse_color` (lines 23-45): strip and lowercase; try the
HEX branch when the string starts with `#` or all non-comma characters are
lowercase hex digits; otherwise (or on HEX failure) delete `"rgb"`, `"("`,
`")"`, `" "` anywhere, split on commas, demand three `int()`-parsable parts
each within `[0,255]`.  `none` models the final `ValueError` of line 45. -/
def parse_color (s : List Char) : Option (ℤ × ℤ × ℤ) :=
  let t := (pyStrip s).map pyLowerChar
  let viaRGB :=
    let cleaned := removeChar ' ' (removeChar ')' (removeChar '(' (removeRGB t)))
    match splitComma cleaned with
    | [p1, p2, p3] =>
      match pyInt10 p1, pyInt10 p2, pyInt10 p3 with
      | some r, some g, some b =>
        if 0 ≤ r ∧ r ≤ 255 ∧ 0 ≤ g ∧ g ≤ 255 ∧ 0 ≤ b ∧ b ≤ 255 then
          some (r, g, b)
        else none
      | _, _, _ => none
    | _ => none
  if startsWithHash t || t.all (fun c => c == ',' || isLowerHexChar c) then
    match hex_to_rgb t with
    | some rgb => some rgb
    | none => viaRGB
  else viaRGB

-- behaviour checks against the Python reference
example : parse_color ['#', 'f', 'f', '0', '0', '0', '0'] = some (255, 0, 0) := by decide
example : parse_color ['#', 'F', '0', '0'] = some (255, 0, 0) := by decide
example : parse_color ['r', 'g', 'b', '(', '2', '5', '5', ',', '0', ',', '0', ')'] =
    some (255, 0, 0) := by decide
example : parse_color ['2', '5', '5', ',', ' ', '0', ',', ' ', '0'] = some (255, 0, 0) := by decide
example : parse_color ['2', '5', '6', ',', '0', ',', '0'] = none := by decide
example : parse_color ['2', '5', '5', ',', '0'] = none := by decide
example : parse_color ['n', 'o', 't', '_', 'a', '_', 'c', 'o', 'l', 'o', 'r'] = none := by decide
example : parse_color ['2', '(', '5', ')', '5', ',', '0', ',', '0'] = some (255, 0, 0) := by decide
example : parse_color ['1', '2', '3', '4', '5', '6'] = some (18, 52, 86) := by decide

/-! ### The documented colour grammar (spec §4.1), for comparison with the
implementation -/

/-- Following the spec's words: "HEX with or without a leading `#`, 3 or 6
hex digits (case-insensitive)". -/
def specHexForm (s : List Char) : Bool :=
  let d := match s with
    | '#' :: rest => rest
    | other => other
  (d.length == 3 || d.length == 6) && d.all (fun c => (hexDigit? c).isSome)

/-- Value of a run of decimal digits. -/
def decDigitsVal (t : List Char) : ℕ :=
  t.foldl (fun a c => 10 * a + (decDigit? c).getD 0) 0

/-- Following the spec's words: one RGB component — an integer, each 0-255,
arbitrary whitespace around commas tolerated. -/
def specIntComponent (p : List Char) : Bool :=
  let t := pyStrip p
  (!t.isEmpty) && t.all (fun c => (decDigit? c).isSome) && decide (decDigitsVal t ≤ 255)

/-- Three comma-separated components. -/
def specRgbInner (s : List Char) : Bool :=
  match splitComma s with
  | [p1, p2, p3] => specIntComponent p1 && specIntComponent p2 && specIntComponent p3
  | _ => false

/-- Following the spec's words: "RGB textual form: optionally wrapped in
`rgb(...)` or bare parentheses, three comma-separated integers, each 0-255,
arbitrary whitespace around commas tolerated". -/
def specRgbForm (s : List Char) : Bool :=
  specRgbInner s ||
  (match s with
   | '(' :: rest =>
     match rest.reverse with
     | ')' :: mid => specRgbInner mid.reverse
     | _ => false
   | _ => false) ||
  (match s with
   | 'r' :: 'g' :: 'b' :: '(' :: rest =>
     match rest.reverse with
     | ')' :: mid => specRgbInner mid.reverse
     | _ => false
   | _ => false)

/-- The documented grammar: HEX form or RGB form (with the range condition
on components built in). -/
def specColorOk (s : List Char) : Bool := specHexForm s || specRgbForm s

/-- C7 counterexample: `"2(5)5,0,0"` matches neither of the documented
grammars, yet `parse_color` accepts it and returns `(255,0,0)`: the
implementation deletes `"rgb"`, `"("`, `")"` and `" "` occurring anywhere
in the string, not only as the documented wrappers.  So parsing does not
fail exactly on the complement of the documented forms. -/
theorem parse_accepts_undocumented_form :
    parse_color ['2', '(', '5', ')', '5', ',', '0', ',', '0'] = some (255, 0, 0) ∧
    specColorOk ['2', '(', '5', ')', '5', ',', '0', ',', '0'] = false := by
  constructor
  · decide
  · decide

/-- C7 amended: the documented examples behave as documented — `"256,0,0"`
(component out of range), `"255,0"` (two components) and `"not_a_color"`
(malformed) are all rejected, and the documented HEX/RGB wrappers are
accepted — but acceptance is strictly wider than the documented grammar
because wrapper characters are deleted anywhere, e.g. `"2(5)5,0,0"`. -/
theorem parse_documented_examples :
    parse_color ['2', '5', '6', ',', '0', ',', '0'] = none ∧
    parse_color ['2', '5', '5', ',', '0'] = none ∧
    parse_color ['n', 'o', 't', '_', 'a', '_', 'c', 'o', 'l', 'o', 'r'] = none ∧
    parse_color ['r', 'g', 'b', '(', '2', '5', '5', ',', ' ', '0', ',', ' ', '0', ')'] =
      some (255, 0, 0) ∧
    parse_color ['(', '2', '5', '5', ',', '0', ',', '0', ')'] = some (255, 0, 0) ∧
    parse_color ['2', '5', '5', ',', '0', ',', '0'] = some (255, 0, 0) ∧
    parse_color ['#', 'f', 'f', '0', '0', '0', '0'] = some (255, 0, 0) ∧
    parse_color ['2', '(', '5', ')', '5', ',', '0', ',', '0'] = some (255, 0, 0) := by
  refine ⟨by decide, by decide, by decide, by decide, by decide, by decide, by decide, by decide⟩

/-! ### Case-folding and hex-evaluation lemmas for the parser -/

lemma pyLower_pyUpper (c : Char) : pyLowerChar (pyUpperChar c) = pyLowerChar c := by
  unfold pyUpperChar
  split <;> rfl

lemma pyLower_idem (c : Char) : pyLowerChar (pyLowerChar c) = pyLowerChar c := by
  nth_rewrite 2 [pyLowerChar.eq_def]
  split <;> rfl

lemma isPySpace_pyLower (c : Char) : isPySpace (pyLowerChar c) = isPySpace c := by
  unfold pyLowerChar
  split <;> rfl

lemma isPySpace_pyUpper (c : Char) : isPySpace (pyUpperChar c) = isPySpace c := by
  unfold pyUpperChar
  split <;> rfl

lemma pyStrip_map (f : Char → Char) (hf : ∀ c, isPySpace (f c) = isPySpace c)
    (s : List Char) : pyStrip (s.map f) = (pyStrip s).map f := by
  have hpf : (isPySpace ∘ f) = isPySpace := funext hf
  unfold pyStrip
  rw [List.dropWhile_map, hpf, ← List.map_reverse, List.dropWhile_map, hpf,
    ← List.map_reverse]

/-- Lowercasing the input first does not change the parse (the parser
lowercases anyway). -/
lemma parse_color_map_lower (s : List Char) :
    parse_color (s.map pyLowerChar) = parse_color s := by
  unfold parse_color
  rw [pyStrip_map pyLowerChar isPySpace_pyLower, List.map_map,
    show pyLowerChar ∘ pyLowerChar = pyLowerChar from funext pyLower_idem]

/-- Uppercasing the input first does not change the parse. -/
lemma parse_color_map_upper (s : List Char) :
    parse_color (s.map pyUpperChar) = parse_color s := by
  unfold parse_color
  rw [pyStrip_map pyUpperChar isPySpace_pyUpper, List.map_map,
    show pyLowerChar ∘ pyUpperChar = pyLowerChar from funext pyLower_pyUpper]

lemma dropWhile_cons_false {p : Char → Bool} {a : Char} {l : List Char}
    (h : p a = false) : List.dropWhile p (a :: l) = a :: l := by
  rw [List.dropWhile_cons, h]
  simp

lemma pyStrip_eq_self {s : List Char} (h : ∀ c ∈ s, isPySpace c = false) :
    pyStrip s = s := by
  unfold pyStrip
  have h1 : s.dropWhile isPySpace = s := by
    cases s with
    | nil => rfl
    | cons a t => exact dropWhile_cons_false (h a (List.mem_cons_self a t))
  rw [h1]
  have h2 : s.reverse.dropWhile isPySpace = s.reverse := by
    cases hrev : s.reverse with
    | nil => rfl
    | cons a t =>
      refine dropWhile_cons_false (h a ?_)
      have ha : a ∈ s.reverse := by rw [hrev]; exact List.mem_cons_self a t
      simpa using ha
  rw [h2, List.reverse_reverse]

lemma lstripHash_cons_ne {a : Char} {l : List Char} (h : (a == '#') = false) :
    lstripHash (a :: l) = a :: l := by
  unfold lstripHash
  exact dropWhile_cons_false h

lemma lstripHash_cons_hash (l : List Char) : lstripHash ('#' :: l) = lstripHash l := by
  unfold lstripHash
  rw [List.dropWhile_cons]
  simp

/-- The 22 characters that can appear in a hex colour string. -/
def hexDigitChars : List Char :=
  hexLowerChars ++ ['A', 'B', 'C', 'D', 'E', 'F']

/-- Shorthand `(hexDigit? c).getD 0`: the value of a hex digit. -/
def hexNatVal (c : Char) : ℕ := (hexDigit? c).getD 0

lemma pyLower_mem_hexLower {c : Char} (h : c ∈ hexDigitChars) :
    pyLowerChar c ∈ hexLowerChars := by
  fin_cases h <;> decide

lemma hexDigit?_of_mem {c : Char} (h : c ∈ hexLowerChars) :
    hexDigit? c = some (hexNatVal c) := by
  fin_cases h <;> rfl

lemma hexLower_not_space {c : Char} (h : c ∈ hexLowerChars) : isPySpace c = false := by
  fin_cases h <;> rfl

lemma hexLower_lower_fix {c : Char} (h : c ∈ hexLowerChars) : pyLowerChar c = c := by
  fin_cases h <;> rfl

lemma hexLower_ne_hash {c : Char} (h : c ∈ hexLowerChars) : (c == '#') = false := by
  fin_cases h <;> rfl

lemma isLowerHexChar_of_mem {c : Char} (h : c ∈ hexLowerChars) :
    isLowerHexChar c = true := by
  unfold isLowerHexChar
  exact List.elem_eq_true_of_mem h

lemma pyInt16_pair {a b : Char} (ha : a ∈ hexLowerChars) (hb : b ∈ hexLowerChars) :
    pyInt16 [a, b] = some ((16 * hexNatVal a + hexNatVal b : ℕ) : ℤ) := by
  fin_cases ha <;> fin_cases hb <;> rfl

lemma hex_to_rgb_eval6 (pre : List Char) (hpre : pre = [] ∨ pre = ['#'])
    (e1 e2 e3 e4 e5 e6 : Char) (m1 : e1 ∈ hexLowerChars) (m2 : e2 ∈ hexLowerChars)
    (m3 : e3 ∈ hexLowerChars) (m4 : e4 ∈ hexLowerChars) (m5 : e5 ∈ hexLowerChars)
    (m6 : e6 ∈ hexLowerChars) :
    hex_to_rgb (pre ++ [e1, e2, e3, e4, e5, e6]) =
      some (((16 * hexNatVal e1 + hexNatVal e2 : ℕ) : ℤ),
        ((16 * hexNatVal e3 + hexNatVal e4 : ℕ) : ℤ),
        ((16 * hexNatVal e5 + hexNatVal e6 : ℕ) : ℤ)) := by
  have hmem : ∀ c ∈ [e1, e2, e3, e4, e5, e6], c ∈ hexLowerChars := by
    intro c hc
    simp only [List.mem_cons, List.not_mem_nil, or_false] at hc
    rcases hc with rfl | rfl | rfl | rfl | rfl | rfl <;> assumption
  have hsp : ∀ c ∈ pre ++ [e1, e2, e3, e4, e5, e6], isPySpace c = false := by
    intro c hc
    rw [List.mem_append] at hc
    rcases hc with hc | hc
    · rcases hpre with rfl | rfl
      · simp at hc
      · simp only [List.mem_singleton] at hc
        subst hc
        rfl
    · exact hexLower_not_space (hmem c hc)
  unfold hex_to_rgb
  rw [pyStrip_eq_self hsp]
  have hl : lstripHash (pre ++ [e1, e2, e3, e4, e5, e6]) = [e1, e2, e3, e4, e5, e6] := by
    rcases hpre with rfl | rfl
    · rw [List.nil_append]
      exact lstripHash_cons_ne (hexLower_ne_hash m1)
    · rw [List.singleton_append, lstripHash_cons_hash]
      exact lstripHash_cons_ne (hexLower_ne_hash m1)
  rw [hl]
  have hinner : (if ([e1, e2, e3, e4, e5, e6] : List Char).length = 3
      then [e1, e2, e3, e4, e5, e6].flatMap (fun c => [c, c])
      else [e1, e2, e3, e4, e5, e6]) = [e1, e2, e3, e4, e5, e6] := if_neg (by simp)
  dsimp only
  rw [hinner,
    if_pos (show ([e1, e2, e3, e4, e5, e6] : List Char).length = 6 from rfl)]
  rw [show List.take 2 [e1, e2, e3, e4, e5, e6] = [e1, e2] from rfl,
    show List.take 2 (List.drop 2 [e1, e2, e3, e4, e5, e6]) = [e3, e4] from rfl,
    show List.take 2 (List.drop 4 [e1, e2, e3, e4, e5, e6]) = [e5, e6] from rfl]
  rw [pyInt16_pair m1 m2, pyInt16_pair m3 m4, pyInt16_pair m5 m6]

lemma hex_to_rgb_eval3 (pre : List Char) (hpre : pre = [] ∨ pre = ['#'])
    (e1 e2 e3 : Char) (m1 : e1 ∈ hexLowerChars) (m2 : e2 ∈ hexLowerChars)
    (m3 : e3 ∈ hexLowerChars) :
    hex_to_rgb (pre ++ [e1, e2, e3]) =
      some (((16 * hexNatVal e1 + hexNatVal e1 : ℕ) : ℤ),
        ((16 * hexNatVal e2 + hexNatVal e2 : ℕ) : ℤ),
        ((16 * hexNatVal e3 + hexNatVal e3 : ℕ) : ℤ)) := by
  have hmem : ∀ c ∈ [e1, e2, e3], c ∈ hexLowerChars := by
    intro c hc
    simp only [List.mem_cons, List.not_mem_nil, or_false] at hc
    rcases hc with rfl | rfl | rfl <;> assumption
  have hsp : ∀ c ∈ pre ++ [e1, e2, e3], isPySpace c = false := by
    intro c hc
    rw [List.mem_append] at hc
    rcases hc with hc | hc
    · rcases hpre with rfl | rfl
      · simp at hc
      · simp only [List.mem_singleton] at hc
        subst hc
        rfl
    · exact hexLower_not_space (hmem c hc)
  unfold hex_to_rgb
  rw [pyStrip_eq_self hsp]
  have hl : lstripHash (pre ++ [e1, e2, e3]) = [e1, e2, e3] := by
    rcases hpre with rfl | rfl
    · rw [List.nil_append]
      exact lstripHash_cons_ne (hexLower_ne_hash m1)
    · rw [List.singleton_append, lstripHash_cons_hash]
      exact lstripHash_cons_ne (hexLower_ne_hash m1)
  rw [hl]
  have hinner : (if ([e1, e2, e3] : List Char).length = 3
      then [e1, e2, e3].flatMap (fun c => [c, c])
      else [e1, e2, e3]) = [e1, e1, e2, e2, e3, e3] := (if_pos rfl).trans rfl
  dsimp only
  rw [hinner,
    if_pos (show ([e1, e1, e2, e2, e3, e3] : List Char).length = 6 from rfl)]
  rw [show List.take 2 [e1, e1, e2, e2, e3, e3] = [e1, e1] from rfl,
    show List.take 2 (List.drop 2 [e1, e1, e2, e2, e3, e3]) = [e2, e2] from rfl,
    show List.take 2 (List.drop 4 [e1, e1, e2, e2, e3, e3]) = [e3, e3] from rfl]
  rw [pyInt16_pair m1 m1, pyInt16_pair m2 m2, pyInt16_pair m3 m3]

/-- The HEX branch of `parse_color` succeeds on a `#`-optional string of
lowercase hex characters whenever `hex_to_rgb` does. -/
lemma parse_color_of_hex (pre ds : List Char) (hpre : pre = [] ∨ pre = ['#'])
    (hmem : ∀ c ∈ ds, c ∈ hexLowerChars) (v : ℤ × ℤ × ℤ)
    (hv : hex_to_rgb (pre ++ ds) = some v) :
    parse_color (pre ++ ds) = some v := by
  have hsp : ∀ c ∈ pre ++ ds, isPySpace c = false := by
    intro c hc
    rw [List.mem_append] at hc
    rcases hc with hc | hc
    · rcases hpre with rfl | rfl
      · simp at hc
      · simp only [List.mem_singleton] at hc
        subst hc
        rfl
    · exact hexLower_not_space (hmem c hc)
  have hlow : ∀ c ∈ pre ++ ds, pyLowerChar c = id c := by
    intro c hc
    rw [List.mem_append] at hc
    rcases hc with hc | hc
    · rcases hpre with rfl | rfl
      · simp at hc
      · simp only [List.mem_singleton] at hc
        subst hc
        rfl
    · exact hexLower_lower_fix (hmem c hc)
  unfold parse_color
  dsimp only
  rw [pyStrip_eq_self hsp]
  rw [(List.map_congr_left hlow).trans (List.map_id _)]
  have hcond : (startsWithHash (pre ++ ds) ||
      (pre ++ ds).all (fun c => c == ',' || isLowerHexChar c)) = true := by
    rcases hpre with rfl | rfl
    · rw [List.nil_append, Bool.or_eq_true]
      right
      refine List.all_eq_true.mpr ?_
      intro c hc
      rw [Bool.or_eq_true]
      exact Or.inr (isLowerHexChar_of_mem (hmem c hc))
    · rw [Bool.or_eq_true]
      exact Or.inl rfl
  rw [if_pos hcond, hv]

lemma parse_color_hex6_eval (pre : List Char) (hpre : pre = [] ∨ pre = ['#'])
    (e1 e2 e3 e4 e5 e6 : Char) (m1 : e1 ∈ hexLowerChars) (m2 : e2 ∈ hexLowerChars)
    (m3 : e3 ∈ hexLowerChars) (m4 : e4 ∈ hexLowerChars) (m5 : e5 ∈ hexLowerChars)
    (m6 : e6 ∈ hexLowerChars) :
    parse_color (pre ++ [e1, e2, e3, e4, e5, e6]) =
      some (((16 * hexNatVal e1 + hexNatVal e2 : ℕ) : ℤ),
        ((16 * hexNatVal e3 + hexNatVal e4 : ℕ) : ℤ),
        ((16 * hexNatVal e5 + hexNatVal e6 : ℕ) : ℤ)) := by
  refine parse_color_of_hex pre _ hpre ?_ _
    (hex_to_rgb_eval6 pre hpre e1 e2 e3 e4 e5 e6 m1 m2 m3 m4 m5 m6)
  intro c hc
  simp only [List.mem_cons, List.not_mem_nil, or_false] at hc
  rcases hc with rfl | rfl | rfl | rfl | rfl | rfl <;> assumption

lemma parse_color_hex3_eval (pre : List Char) (hpre : pre = [] ∨ pre = ['#'])
    (e1 e2 e3 : Char) (m1 : e1 ∈ hexLowerChars) (m2 : e2 ∈ hexLowerChars)
    (m3 : e3 ∈ hexLowerChars) :
    parse_color (pre ++ [e1, e2, e3]) =
      some (((16 * hexNatVal e1 + hexNatVal e1 : ℕ) : ℤ),
        ((16 * hexNatVal e2 + hexNatVal e2 : ℕ) : ℤ),
        ((16 * hexNatVal e3 + hexNatVal e3 : ℕ) : ℤ)) := by
  refine parse_color_of_hex pre _ hpre ?_ _
    (hex_to_rgb_eval3 pre hpre e1 e2 e3 m1 m2 m3)
  intro c hc
  simp only [List.mem_cons, List.not_mem_nil, or_false] at hc
  rcases hc with rfl | rfl | rfl <;> assumption

lemma list_eq_six {α : Type} {l : List α} (h : l.length = 6) :
    ∃ a b c d e f, l = [a, b, c, d, e, f] := by
  rcases l with _ | ⟨a, l⟩
  · simp at h
  rcases l with _ | ⟨b, l⟩
  · simp at h
  rcases l with _ | ⟨c, l⟩
  · simp at h
  rcases l with _ | ⟨d, l⟩
  · simp at h
  rcases l with _ | ⟨e, l⟩
  · simp at h
  rcases l with _ | ⟨f, l⟩
  · simp at h
  rcases l with _ | ⟨g, l⟩
  · exact ⟨a, b, c, d, e, f, rfl⟩
  · simp only [List.length_cons] at h
    omega

lemma map_lower_flatMap_pair (ds : List Char) :
    (ds.flatMap fun x => [x, x]).map pyLowerChar =
      (ds.map pyLowerChar).flatMap fun x => [x, x] := by
  induction ds with
  | nil => rfl
  | cons hd tl ih =>
    simp only [List.flatMap_cons, List.map_cons, List.map_append, List.map_nil,
      List.nil_append, List.cons_append, ih]

/-- C6: for every valid HEX colour string — an optional leading `#` followed
by 6 (or 3) hex digits in either case — `parse_color` succeeds, its result
is unchanged by lowercasing or uppercasing the string, and a 3-digit string
parses to the same colour as its digit-duplicated 6-digit form. -/
theorem parse_hex_case_insensitive (pre ds : List Char)
    (hpre : pre = [] ∨ pre = ['#']) (hlen : ds.length = 6 ∨ ds.length = 3)
    (hhex : ∀ c ∈ ds, c ∈ hexDigitChars) :
    (parse_color (pre ++ ds)).isSome = true ∧
    parse_color ((pre ++ ds).map pyLowerChar) = parse_color (pre ++ ds) ∧
    parse_color ((pre ++ ds).map pyUpperChar) = parse_color (pre ++ ds) ∧
    (ds.length = 3 →
      parse_color (pre ++ ds) = parse_color (pre ++ ds.flatMap (fun c => [c, c]))) := by
  have hpremap : pre.map pyLowerChar = pre := by
    rcases hpre with rfl | rfl <;> rfl
  have hmem : ∀ c ∈ ds.map pyLowerChar, c ∈ hexLowerChars := by
    intro c hc
    rcases List.mem_map.mp hc with ⟨d, hd, rfl⟩
    exact pyLower_mem_hexLower (hhex d hd)
  refine ⟨?_, parse_color_map_lower _, parse_color_map_upper _, ?_⟩
  · rw [← parse_color_map_lower (pre ++ ds), List.map_append, hpremap]
    rcases hlen with h6 | h3
    · have h6' : (ds.map pyLowerChar).length = 6 := by rw [List.length_map]; exact h6
      obtain ⟨a, b, c, d, e, f, heq⟩ := list_eq_six h6'
      have ma : a ∈ hexLowerChars := hmem a (by rw [heq]; simp)
      have mb : b ∈ hexLowerChars := hmem b (by rw [heq]; simp)
      have mc : c ∈ hexLowerChars := hmem c (by rw [heq]; simp)
      have md : d ∈ hexLowerChars := hmem d (by rw [heq]; simp)
      have me : e ∈ hexLowerChars := hmem e (by rw [heq]; simp)
      have mf : f ∈ hexLowerChars := hmem f (by rw [heq]; simp)
      rw [heq, parse_color_hex6_eval pre hpre a b c d e f ma mb mc md me mf]
      rfl
    · have h3' : (ds.map pyLowerChar).length = 3 := by rw [List.length_map]; exact h3
      obtain ⟨a, b, c, heq⟩ := List.length_eq_three.mp h3'
      have ma : a ∈ hexLowerChars := hmem a (by rw [heq]; simp)
      have mb : b ∈ hexLowerChars := hmem b (by rw [heq]; simp)
      have mc : c ∈ hexLowerChars := hmem c (by rw [heq]; simp)
      rw [heq, parse_color_hex3_eval pre hpre a b c ma mb mc]
      rfl
  · intro h3
    have h3' : (ds.map pyLowerChar).length = 3 := by rw [List.length_map]; exact h3
    obtain ⟨a, b, c, heq⟩ := List.length_eq_three.mp h3'
    have ma : a ∈ hexLowerChars := hmem a (by rw [heq]; simp)
    have mb : b ∈ hexLowerChars := hmem b (by rw [heq]; simp)
    have mc : c ∈ hexLowerChars := hmem c (by rw [heq]; simp)
    have key := map_lower_flatMap_pair ds
    rw [← parse_color_map_lower (pre ++ ds), List.map_append, hpremap, heq,
      parse_color_hex3_eval pre hpre a b c ma mb mc]
    rw [← parse_color_map_lower (pre ++ ds.flatMap fun c => [c, c]),
      List.map_append, hpremap, key, heq]
    rw [show ([a, b, c].flatMap fun x => [x, x]) = [a, a, b, b, c, c] from rfl]
    rw [parse_color_hex6_eval pre hpre a a b b c c ma ma mb mb mc mc]

/-- Witness for `parse_hex_case_insensitive` on the mixed-case string
`"#Ff00Aa"`. -/
theorem parse_hex_case_insensitive_witness :
    (∀ c ∈ ['F', 'f', '0', '0', 'A', 'a'], c ∈ hexDigitChars) ∧
    ((parse_color (['#'] ++ ['F', 'f', '0', '0', 'A', 'a'])).isSome = true ∧
      parse_color ((['#'] ++ ['F', 'f', '0', '0', 'A', 'a']).map pyLowerChar) =
        parse_color (['#'] ++ ['F', 'f', '0', '0', 'A', 'a']) ∧
      parse_color ((['#'] ++ ['F', 'f', '0', '0', 'A', 'a']).map pyUpperChar) =
        parse_color (['#'] ++ ['F', 'f', '0', '0', 'A', 'a']) ∧
      (['F', 'f', '0', '0', 'A', 'a'].length = 3 →
        parse_color (['#'] ++ ['F', 'f', '0', '0', 'A', 'a']) =
          parse_color (['#'] ++ ['F', 'f', '0', '0', 'A', 'a'].flatMap (fun c => [c, c])))) :=
  ⟨by decide, parse_hex_case_insensitive ['#'] ['F', 'f', '0', '0', 'A', 'a']
    (Or.inr rfl) (Or.inl rfl) (by decide)⟩
